import Mathlib

/-!
Shallow embedding of the govm version manager (a Rust CLI) and proofs about it.

The filesystem is modelled explicitly: a candidate marker file is either
absent, present-but-unreadable (a read attempt fails), or present with a
string content.  The working-directory ascent of `find_local_version` is
modelled as the list of `.go-version` file states from the working directory
upward to the root.  Fallible Rust functions returning `anyhow::Result` are
embedded as `Except Unit`.
-/

deriving instance DecidableEq for Except

namespace Govm

/-- State of one file on disk: missing, present but failing to read, or
present with the given content. -/
inductive FileState where
  | absent : FileState
  | unreadable : FileState
  | content : String → FileState
deriving DecidableEq

/-- Strip every leading 'v' character, as Rust's
`trim_start_matches('v')` does (it removes the prefix repeatedly). -/
def dropVs : List Char → List Char
  | 'v' :: rest => dropVs rest
  | l => l

/-- Strip every leading "go" token, as Rust's
`trim_start_matches("go")` does (it removes the prefix repeatedly). -/
def dropGos : List Char → List Char
  | 'g' :: 'o' :: rest => dropGos rest
  | l => l

/-- Embeds `normalize` from src/version.rs:
`version.trim_start_matches('v').trim_start_matches("go").to_string()`. -/
def normalize (version : String) : String :=
  String.mk (dropGos (dropVs version.data))

/-- Whether a character list starts with 'v'. -/
def headIsV : List Char → Bool
  | 'v' :: _ => true
  | _ => false

/-- Whether a character list starts with the token "go". -/
def headIsGo : List Char → Bool
  | 'g' :: 'o' :: _ => true
  | _ => false

/-- Embeds Rust's `str::trim`: drop whitespace from both ends. -/
def rustTrim (s : String) : String :=
  String.mk (((s.data.dropWhile Char.isWhitespace).reverse.dropWhile Char.isWhitespace).reverse)

/-- Embeds `find_local_version` from src/version.rs.  The argument is the
chain of `.go-version` file states from the working directory upward.  At
each level: if the file exists it is read (a read failure propagates via
`?`), its trimmed content is normalized, and a non-empty result is
returned; otherwise the walk continues upward. -/
def find_local_version : List FileState → Except Unit (Option String)
  | [] => Except.ok none
  | FileState.absent :: rest => find_local_version rest
  | FileState.unreadable :: _ => Except.error ()
  | FileState.content c :: rest =>
    let version := normalize (rustTrim c)
    if version ≠ "" then Except.ok (some version) else find_local_version rest

/-- Embeds `get_global_version` from src/version.rs: if the global version
file exists it is read (a read failure propagates via `?`); the trimmed,
normalized content is returned when non-empty. -/
def get_global_version : FileState → Except Unit (Option String)
  | FileState.absent => Except.ok none
  | FileState.unreadable => Except.error ()
  | FileState.content c =>
    let version := normalize (rustTrim c)
    Except.ok (if version ≠ "" then some version else none)

/-- Embeds `resolve` from src/version.rs.  `ov` is the `GOVM_VERSION`
environment variable (present or not), `dirs` the `.go-version` chain,
`g` the global version file.  Priority: environment variable (normalized,
if non-empty), then the directory walk, then the global file. -/
def resolve (ov : Option String) (dirs : List FileState) (g : FileState) :
    Except Unit (Option String) :=
  let fallback : Except Unit (Option String) :=
    match find_local_version dirs with
    | Except.error e => Except.error e
    | Except.ok (some v) => Except.ok (some v)
    | Except.ok none => get_global_version g
  match ov with
  | some o => if normalize o ≠ "" then Except.ok (some (normalize o)) else fallback
  | none => fallback

/-- Numeric value of a digit run (what Rust's `str::parse` computes on an
all-digit string). -/
def digitsVal (l : List Char) : Nat :=
  l.foldl (fun a c => 10 * a + (c.toNat - 48)) 0

/-- Value of a digit run parsed as Rust `u32`: `parse().unwrap_or(0)`
yields 0 when the value exceeds `u32::MAX`. -/
def toU32 (l : List Char) : Nat :=
  let n := digitsVal l
  if n < 4294967296 then n else 0

/-- Split a character list into its maximal leading digit run and the rest
(the behaviour of a greedy `\d+` followed by the remainder). -/
def spanDigits (l : List Char) : List Char × List Char :=
  (l.takeWhile Char.isDigit, l.dropWhile Char.isDigit)

/-- Embeds `parse` from src/version.rs, which matches
`^(\d+)\.(\d+)(?:\.(\d+))?(.*)$` and returns
`(major, minor, patch, suffix)` with `parse::<u32>().unwrap_or(0)` on each
numeric group; on no match it returns `(0, 0, 0, v)`.  `.*` cannot cross a
newline and `$` anchors at the end, so a newline left for the suffix group
makes the whole regex fail to match. -/
def parse (v : String) : Nat × Nat × Nat × String :=
  match spanDigits v.data with
  | (c1 :: d1, rest1) =>
    (match rest1 with
     | '.' :: r2 =>
       (match spanDigits r2 with
        | (c2 :: d2, rest2) =>
          let step : Option (List Char) × List Char :=
            match rest2 with
            | '.' :: r3 =>
              (match spanDigits r3 with
               | (c3 :: d3, r4) => (some (c3 :: d3), r4)
               | ([], _) => (none, rest2))
            | _ => (none, rest2)
          if step.2.contains '\n' then (0, 0, 0, v)
          else (toU32 (c1 :: d1), toU32 (c2 :: d2), (step.1.map toU32).getD 0,
            String.mk step.2)
        | ([], _) => (0, 0, 0, v))
     | _ => (0, 0, 0, v))
  | ([], _) => (0, 0, 0, v)

/-- Strict lexicographic order on character lists by code point, which for
UTF-8 encoded strings coincides with Rust's byte-wise `Ord` on `String`
(UTF-8 is order-preserving). -/
def str_lt : List Char → List Char → Bool
  | _, [] => false
  | [], _ :: _ => true
  | x :: xs, y :: ys => if x < y then true else if y < x then false else str_lt xs ys

/-- Strict order on parsed version keys: Rust's derived lexicographic `Ord`
on the tuple `(u32, u32, u32, String)`. -/
def vkey_lt : Nat × Nat × Nat × String → Nat × Nat × Nat × String → Bool
  | (a1, a2, a3, a4), (b1, b2, b3, b4) =>
    if a1 < b1 then true
    else if b1 < a1 then false
    else if a2 < b2 then true
    else if b2 < a2 then false
    else if a3 < b3 then true
    else if b3 < a3 then false
    else str_lt a4.data b4.data

/-- "May precede" relation of the descending sort in
`get_installed_versions`: `a` may come before `b` when `parse a` is not
strictly below `parse b`. -/
def version_order (a b : String) : Prop :=
  vkey_lt (parse a) (parse b) = false

instance : DecidableRel version_order :=
  fun _ _ => inferInstanceAs (Decidable (_ = false))

/-- State of a GoVM root: the directory entries of `~/.govm/versions`
(name and whether the entry is a directory) and the state of the global
version file `~/.govm/version`. -/
structure GoVMState where
  entries : List (String × Bool)
  globalFile : FileState
deriving DecidableEq

/-- Embeds `get_installed_versions` from src/govm.rs: list the names of
the directory entries (non-directories are skipped), sorted by parsed
version descending.  Rust's `sort_by_key` with `Reverse(parse(v))` is a
stable descending sort; a stable sort's output is uniquely determined by
the comparison, so the (stable) insertion sort below computes it. -/
def get_installed_versions (st : GoVMState) : List String :=
  List.insertionSort version_order ((st.entries.filter (fun e => e.2)).map (fun e => e.1))

/-- Embeds `is_version_installed` from src/govm.rs:
`self.versions_dir.join(version).exists()` — true when ANY entry (file or
directory) with that name exists. -/
def is_version_installed (st : GoVMState) (version : String) : Bool :=
  st.entries.any (fun e => e.1 == version)

/-- Embeds `set_global_version` from src/govm.rs: normalize, refuse when
not installed, else overwrite the global version file with the version
plus a trailing newline. -/
def set_global_version (st : GoVMState) (v : String) : Except Unit GoVMState :=
  let version := normalize v
  if is_version_installed st version then
    Except.ok { st with globalFile := FileState.content (version ++ "\n") }
  else Except.error ()

/-- Embeds `set_local_version` from src/govm.rs: normalize, refuse when
not installed, else write `.go-version` in the working directory (the head
of the directory chain) with the version plus a trailing newline. -/
def set_local_version (st : GoVMState) (dirs : List FileState) (v : String) :
    Except Unit (List FileState) :=
  let version := normalize v
  if is_version_installed st version then
    Except.ok (dirs.set 0 (FileState.content (version ++ "\n")))
  else Except.error ()

/-- Embeds `fs::remove_dir_all` on `versions_dir.join(v)`: succeeds
exactly when a directory entry with that name exists, removing every entry
of that name; fails on a missing path or a non-directory entry. -/
def remove_dir_all (st : GoVMState) (v : String) : Except Unit GoVMState :=
  if st.entries.any (fun e => e.1 == v && e.2) then
    Except.ok { st with entries := st.entries.filter (fun e => e.1 ≠ v) }
  else Except.error ()

/-- Embeds `uninstall_version` from src/govm.rs: normalize; when not
installed print a message and return `Ok`; otherwise read the global
version (propagating read failures), clear the global version file when it
equals the version being removed, then `remove_dir_all` the install
directory. -/
def uninstall_version (st : GoVMState) (v : String) : Except Unit GoVMState :=
  let version := normalize v
  if is_version_installed st version = false then Except.ok st
  else
    match get_global_version st.globalFile with
    | Except.error e => Except.error e
    | Except.ok global =>
      let st1 := if global = some version then { st with globalFile := FileState.absent } else st
      remove_dir_all st1 version

/-- Outcome of `exec_command`: each `bail!`/`context` failure, or the
spawn of the target binary.  `spawned goroot command exitCode` records
that the process was started with the `GOROOT` environment variable set to
the resolved version's install directory (identified here by the version
name) and that govm exits with `status.code().unwrap_or(1)`. -/
inductive ExecResult where
  | resolveFailed : ExecResult
  | noVersionConfigured : ExecResult
  | notInstalled : String → ExecResult
  | binaryNotFound : String → String → ExecResult
  | spawned : String → String → Nat → ExecResult
deriving DecidableEq

/-- Embeds `exec_command` from src/govm.rs.  `binPresent v b` tells
whether `versions/<v>/bin/<b>` exists; `childCode` is the exit code the
child would report (`none` models death by signal, which
`status.code().unwrap_or(1)` turns into exit code 1). -/
def exec_command (st : GoVMState) (ov : Option String) (dirs : List FileState)
    (binPresent : String → String → Bool) (command : String) (childCode : Option Nat) :
    ExecResult :=
  match resolve ov dirs st.globalFile with
  | Except.error _ => ExecResult.resolveFailed
  | Except.ok none => ExecResult.noVersionConfigured
  | Except.ok (some version) =>
    if is_version_installed st version = false then ExecResult.notInstalled version
    else if binPresent version command = false then ExecResult.binaryNotFound command version
    else ExecResult.spawned version command (childCode.getD 1)

/-- Remove a list of version directories in order, as the confirmed branch
of `prune_versions` does, stopping at the first failure. -/
def removeAll (st : GoVMState) : List String → Except Unit GoVMState
  | [] => Except.ok st
  | v :: rest =>
    match remove_dir_all st v with
    | Except.error e => Except.error e
    | Except.ok st1 => removeAll st1 rest

/-- Embeds `prune_versions` from src/govm.rs: sort installed versions
descending, read the global version (propagating read failures); when at
most `keep` versions are installed do nothing; otherwise remove the
versions after the first `keep` except the global one, after the
interactive confirmation (modelled by `confirm`).  Returns the final state
together with the list of versions passed to removal (empty when nothing
was pruned or the prompt was declined). -/
def prune_versions (st : GoVMState) (keep : Nat) (confirm : Bool) :
    Except Unit (GoVMState × List String) :=
  let versions := get_installed_versions st
  match get_global_version st.globalFile with
  | Except.error e => Except.error e
  | Except.ok global =>
    if versions.length ≤ keep then Except.ok (st, [])
    else
      let to_remove := (versions.drop keep).filter (fun v => global ≠ some v)
      if to_remove.isEmpty then Except.ok (st, [])
      else if confirm then
        match removeAll st to_remove with
        | Except.error e => Except.error e
        | Except.ok st1 => Except.ok (st1, to_remove)
      else Except.ok (st, [])

/-- The managed binary names, `GO_BINARIES` from src/constants.rs. -/
def GO_BINARIES : List String := ["go", "gofmt"]

/-- Embeds Rust's `str::contains(&str)`: substring containment. -/
def containsStr (hay pat : String) : Bool :=
  decide (pat.data <:+: hay.data)

/-- Fixed text of the shim script before the first interpolation. -/
def shimPart1 : String :=
  "#!/bin/sh\n# Shim created by govm - DO NOT EDIT\n# This shim intercepts calls to \x27"

/-- Fixed text of the shim script between the binary name and the govm
path. -/
def shimPart2 : String :=
  "\x27 and delegates to the appropriate Go version\n\nexec \""

/-- Fixed text of the shim script between the govm path and the second
binary name. -/
def shimPart3 : String := "\" exec \""

/-- Fixed text of the shim script after the second binary name. -/
def shimPart4 : String := "\" \"$@\"\n"

/-- The shim script text produced by `create_shim` in src/shim.rs. -/
def shim_content (binary govm : String) : String :=
  shimPart1 ++ binary ++ shimPart2 ++ govm ++ shimPart3 ++ binary ++ shimPart4

/-- The staleness test of `ensure_shims` in src/shim.rs: rewrite when the
shim file is missing, unreadable, or its content does not contain the
current govm executable path. -/
def needs_update : FileState → String → Bool
  | FileState.absent, _ => true
  | FileState.unreadable, _ => true
  | FileState.content c, govm => ! containsStr c govm

/-- One iteration of the `ensure_shims` loop for a single binary name:
returns the resulting shim file state and whether a write happened. -/
def ensure_shim (s : FileState) (binary govm : String) : FileState × Bool :=
  if needs_update s govm then (FileState.content (shim_content binary govm), true)
  else (s, false)

/-- Embeds `ensure_shims` from src/shim.rs over a shim directory (one file
state per binary name): each managed binary's shim is updated when stale.
The second component records which binaries were written. -/
def ensure_shims (store : String → FileState) (govm : String) :
    (String → FileState) × (String → Bool) :=
  (fun b => if GO_BINARIES.contains b then (ensure_shim (store b) b govm).1 else store b,
   fun b => GO_BINARIES.contains b && (ensure_shim (store b) b govm).2)

/-- Index of the first directory level whose `.go-version` file exists
(in any state), mirroring the provenance-display loop in `show_version`
(src/govm.rs), which breaks at the first `version_file.exists()`. -/
def first_existing_idx : List FileState → Option Nat
  | [] => none
  | FileState.absent :: rest => (first_existing_idx rest).map (· + 1)
  | _ :: _ => some 0

/-- Index of the directory level whose `.go-version` file actually
supplies the resolved version: the first readable file whose trimmed,
normalized content is non-empty, with absent and empty files skipped
(`none` past an unreadable file, where the walk errors out). -/
def resolve_pin_idx : List FileState → Option Nat
  | [] => none
  | FileState.absent :: rest => (resolve_pin_idx rest).map (· + 1)
  | FileState.unreadable :: _ => none
  | FileState.content c :: rest =>
    if normalize (rustTrim c) ≠ "" then some 0
    else (resolve_pin_idx rest).map (· + 1)

/-- What `show_version` reports as the origin of the resolved version. -/
inductive Provenance where
  | envOverride : Provenance
  | pinFile : Nat → Provenance
  | silent : Provenance
  | globalDefault : Provenance
  | unset : Provenance
deriving DecidableEq

/-- Embeds the provenance display of `show_version` in src/govm.rs: after
resolution, when `GOVM_VERSION` is present report it; otherwise when
`find_local_version` returns a version equal to the resolved one, re-walk
the directories and report the FIRST level whose `.go-version` file
exists; otherwise report the global version file.  `silent` marks the
branches where the code prints no provenance line. -/
def show_version_source (ov : Option String) (dirs : List FileState) (g : FileState) :
    Except Unit Provenance :=
  match resolve ov dirs g with
  | Except.error e => Except.error e
  | Except.ok none => Except.ok Provenance.unset
  | Except.ok (some version) =>
    if ov.isSome then Except.ok Provenance.envOverride
    else
      match find_local_version dirs with
      | Except.error e => Except.error e
      | Except.ok (some localVer) =>
        if localVer = version then
          match first_existing_idx dirs with
          | some i => Except.ok (Provenance.pinFile i)
          | none => Except.ok Provenance.silent
        else Except.ok Provenance.silent
      | Except.ok none => Except.ok Provenance.globalDefault

/-- Project a readable file state to its optional content. -/
def toOpt : FileState → Option String
  | FileState.absent => none
  | FileState.unreadable => none
  | FileState.content c => some c

/-- Modelled from the spec's words (§4.3 step 2), for comparison with the
code: the first scoped-pin whose canonicalized, trimmed content is
non-empty wins; an empty or whitespace-only pin file is skipped. -/
def specPin : List (Option String) → Option String
  | [] => none
  | none :: rest => specPin rest
  | some c :: rest =>
    let v := normalize (rustTrim c)
    if v ≠ "" then some v else specPin rest

/-- Modelled from the spec's words (§4.3 step 3), for comparison with the
code: the global-default marker's trimmed content, canonicalized, when
non-empty. -/
def specGlobal : Option String → Option String
  | none => none
  | some c =>
    let v := normalize (rustTrim c)
    if v ≠ "" then some v else none

/-- Modelled from the spec's words (§4.3), for comparison with the code:
the precedence chain, first match wins — override (canonicalized,
non-empty), then the scoped-pin walk, then the global default, else
absent. -/
def spec_resolve (ov : Option String) (pins : List (Option String)) (g : Option String) :
    Option String :=
  let rest : Option String :=
    match specPin pins with
    | some v => some v
    | none => specGlobal g
  match ov with
  | some o => if normalize o ≠ "" then some (normalize o) else rest
  | none => rest


/-- A pin file the resolution walk passes over: absent, or readable with
empty canonical content. -/
def skips_pin : FileState → Bool
  | FileState.absent => true
  | FileState.unreadable => false
  | FileState.content c => normalize (rustTrim c) == ""

/-- An override the resolution ignores: the environment variable is unset
or its normalized value is empty. -/
def override_falls_through : Option String → Bool
  | none => true
  | some o => normalize o == ""

end Govm

namespace Govm

theorem dropVs_no_match {l : List Char} (h : ∀ rest, l = 'v' :: rest → False) :
    dropVs l = l := by
  unfold dropVs
  split
  · rename_i rest
    exact absurd rfl (h rest)
  · rfl

theorem headIsV_dropVs (l : List Char) : headIsV (dropVs l) = false := by
  induction l using dropVs.induct with
  | case1 rest ih =>
    rw [dropVs]
    exact ih
  | case2 l h =>
    rw [dropVs_no_match h]
    unfold headIsV
    split
    · rename_i rest
      exact absurd rfl (h rest)
    · rfl

theorem dropVs_of_not_v {l : List Char} (h : headIsV l = false) : dropVs l = l := by
  apply dropVs_no_match
  intro rest hrest
  subst hrest
  simp [headIsV] at h

theorem dropGos_no_match {l : List Char} (h : ∀ rest, l = 'g' :: 'o' :: rest → False) :
    dropGos l = l := by
  unfold dropGos
  split
  · rename_i rest
    exact absurd rfl (h rest)
  · rfl

theorem headIsGo_dropGos (l : List Char) : headIsGo (dropGos l) = false := by
  induction l using dropGos.induct with
  | case1 rest ih =>
    rw [dropGos]
    exact ih
  | case2 l h =>
    rw [dropGos_no_match h]
    unfold headIsGo
    split
    · rename_i rest
      exact absurd rfl (h rest)
    · rfl

theorem dropGos_of_not_go {l : List Char} (h : headIsGo l = false) : dropGos l = l := by
  apply dropGos_no_match
  intro rest hrest
  subst hrest
  simp [headIsGo] at h

theorem length_dropVs_le (l : List Char) : (dropVs l).length ≤ l.length := by
  induction l using dropVs.induct with
  | case1 rest ih =>
    rw [dropVs]
    refine Nat.le_trans ih ?_
    simp only [List.length_cons]
    omega
  | case2 l h =>
    rw [dropVs_no_match h]

theorem length_dropGos_le (l : List Char) : (dropGos l).length ≤ l.length := by
  induction l using dropGos.induct with
  | case1 rest ih =>
    rw [dropGos]
    refine Nat.le_trans ih ?_
    simp only [List.length_cons]
    omega
  | case2 l h =>
    rw [dropGos_no_match h]

/-- C4 counterexample: `normalize` is not idempotent and does not strip a
"go" token followed by a "v" marker: `normalize "gov1.21.0"` is
`"v1.21.0"`, which normalizes further; and it strips more than one leading
"v". -/
theorem c4_normalize_counterexample :
    normalize (normalize "gov1.21.0") ≠ normalize "gov1.21.0"
    ∧ normalize "gov1.21.0" = "v1.21.0"
    ∧ normalize "vv1.21.0" = "1.21.0" := by
  decide

/-- C4 (amended): `normalize` strips all leading 'v' characters and then
all leading "go" tokens, in that fixed order; it is idempotent exactly on
the strings whose normal form does not start with 'v'; the spec's example
equalities hold, but `normalize "gov1.21.0" = "v1.21.0"`, so the order of
the prefixes matters and idempotence fails in general. -/
theorem c4_normalize_amended :
    (∀ x : String, normalize (normalize x) = normalize x ↔ headIsV (normalize x).data = false)
    ∧ normalize "v1.21.0" = "1.21.0"
    ∧ normalize "go1.21.0" = "1.21.0"
    ∧ normalize "1.21.0" = "1.21.0"
    ∧ normalize "gov1.21.0" = "v1.21.0" := by
  refine ⟨?_, by decide, by decide, by decide, by decide⟩
  intro x
  constructor
  · intro h
    by_contra hv
    rw [Bool.not_eq_false] at hv
    have hL : (normalize x).data = dropGos (dropVs x.data) := rfl
    obtain ⟨M, hM⟩ : ∃ M, (normalize x).data = 'v' :: M := by
      revert hv
      unfold headIsV
      split
      · rename_i heq
        exact fun _ => ⟨_, heq⟩
      · intro hfalse
        simp at hfalse
    have hdata := congrArg String.data h
    have hdata2 : dropGos (dropVs ((normalize x).data)) = (normalize x).data := hdata
    rw [hM] at hdata2
    have hlen : (dropGos (dropVs M)).length ≤ M.length :=
      Nat.le_trans (length_dropGos_le _) (length_dropVs_le _)
    have : dropVs ('v' :: M) = dropVs M := rfl
    rw [this] at hdata2
    have := congrArg List.length hdata2
    simp at this
    omega
  · intro h
    have h1 : dropVs ((normalize x).data) = (normalize x).data := dropVs_of_not_v h
    have h2 : dropGos ((normalize x).data) = (normalize x).data :=
      dropGos_of_not_go (headIsGo_dropGos _)
    show String.mk (dropGos (dropVs ((normalize x).data))) = normalize x
    rw [h1, h2]

/-- C2 counterexample: with the code's derived tuple ordering the stable
version is strictly LESS than the prerelease at equal major.minor.patch —
`parse "1.21.0" < parse "1.21.0rc1"` — refuting the claimed
`parse("1.21.0") > parse("1.21.0rc1")`. -/
theorem c2_order_counterexample :
    vkey_lt (parse "1.21.0") (parse "1.21.0rc1") = true
    ∧ vkey_lt (parse "1.21.0rc1") (parse "1.21.0") = false := by
  decide

theorem str_lt_nil_cons (y : Char) (ys : List Char) : str_lt [] (y :: ys) = true := rfl

/-- C2 (amended): version keys compare lexicographically: major, minor,
patch numerically ascending; at equal major.minor.patch the prerelease
strings compare lexicographically with the empty string least, so a
version with an empty prerelease is strictly LESS than one with a
non-empty prerelease — in particular `parse "1.21.0" < parse "1.21.0rc1"`
— and two non-empty prereleases compare lexicographically. -/
theorem c2_order_amended :
    (∀ a1 a2 a3 b1 b2 b3 : Nat, ∀ s t : String,
      (a1 < b1 ∨ (a1 = b1 ∧ a2 < b2) ∨ (a1 = b1 ∧ a2 = b2 ∧ a3 < b3)) →
        vkey_lt (a1, a2, a3, s) (b1, b2, b3, t) = true)
    ∧ (∀ m n p : Nat, ∀ s t : String,
        vkey_lt (m, n, p, s) (m, n, p, t) = str_lt s.data t.data)
    ∧ (∀ m n p : Nat, ∀ t : String, t ≠ "" →
        vkey_lt (m, n, p, "") (m, n, p, t) = true)
    ∧ vkey_lt (parse "1.21.0") (parse "1.21.0rc1") = true := by
  have hsame : ∀ m n p : Nat, ∀ s t : String,
      vkey_lt (m, n, p, s) (m, n, p, t) = str_lt s.data t.data := by
    intro m n p s t
    simp [vkey_lt]
  refine ⟨?_, hsame, ?_, by decide⟩
  · intro a1 a2 a3 b1 b2 b3 s t h
    rcases h with h | ⟨h1, h2⟩ | ⟨h1, h2, h3⟩
    · simp [vkey_lt, h]
    · subst h1
      simp [vkey_lt, h2]
    · subst h1; subst h2
      simp [vkey_lt, h3]
  · intro m n p t ht
    rw [hsame]
    obtain ⟨d⟩ := t
    cases d with
    | nil => exact absurd rfl ht
    | cons y ys => exact str_lt_nil_cons y ys

/-- C2 witness: the amended tie-break applied at `(1, 21, 0)` with
prerelease `"rc1"`. -/
theorem c2_order_amended_witness :
    ("rc1" : String) ≠ "" ∧ vkey_lt (1, 21, 0, "") (1, 21, 0, "rc1") = true :=
  ⟨by decide, c2_order_amended.2.2.1 1 21 0 "rc1" (by decide)⟩

end Govm

namespace Govm

theorem find_local_skips {pre : List FileState} (h : ∀ d ∈ pre, skips_pin d = true) :
    (∀ rest, find_local_version (pre ++ FileState.unreadable :: rest) = Except.error ())
    ∧ find_local_version pre = Except.ok none := by
  induction pre with
  | nil =>
    exact ⟨fun rest => rfl, rfl⟩
  | cons d pre ih =>
    have hd : skips_pin d = true := h d (by simp)
    have hpre : ∀ x ∈ pre, skips_pin x = true := fun x hx => h x (by simp [hx])
    obtain ⟨ih1, ih2⟩ := ih hpre
    cases d with
    | absent =>
      exact ⟨fun rest => ih1 rest, ih2⟩
    | unreadable =>
      simp [skips_pin] at hd
    | content c =>
      have hc : normalize (rustTrim c) = "" := by simpa [skips_pin] using hd
      constructor
      · intro rest
        have := ih1 rest
        simp [find_local_version, hc]
        exact this
      · simp [find_local_version, hc]
        exact ih2

/-- C3 counterexample: a read error on an existing candidate marker file
IS propagated as fatal — with an unreadable `.go-version` in the working
directory and a readable global default, `resolve` errors out instead of
returning the global default, and an unreadable global-default file also
errors resolution. -/
theorem c3_read_error_counterexample :
    resolve none [FileState.unreadable] (FileState.content "1.20.0") = Except.error ()
    ∧ resolve none [] FileState.unreadable = Except.error () := by
  decide

/-- C3 (amended): a filesystem read error on an existing candidate marker
file is propagated as a fatal resolution error, not treated as absence:
when the override falls through and every nearer pin file is absent or
canonically empty, an unreadable pin file aborts the walk with an error
(the ascent does not continue), and an unreadable global-default file
likewise aborts resolution. -/
theorem c3_read_error_amended :
    ∀ (ov : Option String) (pre rest : List FileState) (g : FileState),
      override_falls_through ov = true →
      (∀ d ∈ pre, skips_pin d = true) →
      resolve ov (pre ++ FileState.unreadable :: rest) g = Except.error ()
      ∧ resolve ov pre FileState.unreadable = Except.error () := by
  intro ov pre rest g hov hpre
  obtain ⟨h1, h2⟩ := find_local_skips hpre
  constructor
  · cases ov with
    | none => simp [resolve, h1 rest]
    | some o =>
      have ho : normalize o = "" := by simpa [override_falls_through] using hov
      simp [resolve, ho, h1 rest]
  · cases ov with
    | none => simp [resolve, h2, get_global_version]
    | some o =>
      have ho : normalize o = "" := by simpa [override_falls_through] using hov
      simp [resolve, ho, h2, get_global_version]

/-- C3 witness: the amended statement applied with no override, no nearer
pins, an unreadable pin in the working directory, and separately an
unreadable global file. -/
theorem c3_read_error_amended_witness :
    override_falls_through none = true
    ∧ resolve none ([] ++ FileState.unreadable :: []) (FileState.content "1.20.0") =
        Except.error ()
    ∧ resolve none [] FileState.unreadable = Except.error () :=
  ⟨rfl,
   (c3_read_error_amended none [] [] (FileState.content "1.20.0") rfl (by simp)).1,
   (c3_read_error_amended none [] [] (FileState.content "1.20.0") rfl (by simp)).2⟩

end Govm

namespace Govm

theorem find_local_readable {dirs : List FileState}
    (h : ∀ d ∈ dirs, d ≠ FileState.unreadable) :
    find_local_version dirs = Except.ok (specPin (dirs.map toOpt)) := by
  induction dirs with
  | nil => rfl
  | cons d rest ih =>
    have hd : d ≠ FileState.unreadable := h d (by simp)
    have hrest : ∀ x ∈ rest, x ≠ FileState.unreadable := fun x hx => h x (by simp [hx])
    cases d with
    | absent => simpa [find_local_version, toOpt, specPin] using ih hrest
    | unreadable => exact absurd rfl hd
    | content c =>
      by_cases hc : normalize (rustTrim c) = ""
      · simp [find_local_version, specPin, toOpt, hc]
        exact ih hrest
      · simp [find_local_version, specPin, toOpt, hc]

theorem get_global_readable {g : FileState} (h : g ≠ FileState.unreadable) :
    get_global_version g = Except.ok (specGlobal (toOpt g)) := by
  cases g with
  | absent => rfl
  | unreadable => exact absurd rfl h
  | content c => rfl

/-- C1: on every resolution context free of read errors, `resolve`
follows the precedence chain with first match winning: a present override
with non-empty canonical form; else the nearest pin file whose trimmed,
canonical content is non-empty (empty or whitespace-only pins skipped,
walk continuing upward); else the global default's non-empty canonical
content; else absent — stated as equality with `spec_resolve`, the chain
written from the spec's words. -/
theorem c1_resolve_precedence :
    ∀ (ov : Option String) (dirs : List FileState) (g : FileState),
      (∀ d ∈ dirs, d ≠ FileState.unreadable) → g ≠ FileState.unreadable →
      resolve ov dirs g = Except.ok (spec_resolve ov (dirs.map toOpt) (toOpt g)) := by
  intro ov dirs g hdirs hg
  have hloc := find_local_readable hdirs
  have hglob := get_global_readable hg
  have hfall :
      (match find_local_version dirs with
        | Except.error e => Except.error e
        | Except.ok (some v) => Except.ok (some v)
        | Except.ok none => get_global_version g) =
      Except.ok (match specPin (dirs.map toOpt) with
        | some v => some v
        | none => specGlobal (toOpt g)) := by
    rw [hloc]
    cases specPin (dirs.map toOpt) with
    | none => simpa using hglob
    | some v => rfl
  cases ov with
  | none => simpa [resolve, spec_resolve] using hfall
  | some o =>
    by_cases ho : normalize o = ""
    · simpa [resolve, spec_resolve, ho] using hfall
    · simp [resolve, spec_resolve, ho]

/-- C1 witness: the spec's end-to-end precedence scenario — override
`"1.22.0"`, a working-directory pin `"1.21.0"`, a global default
`"1.20.0"`; then with the override removed; then with the pin also
removed; then with all three removed. -/
theorem c1_resolve_precedence_witness :
    (∀ d ∈ ([FileState.content "1.21.0"] : List FileState), d ≠ FileState.unreadable)
    ∧ (FileState.content "1.20.0" ≠ FileState.unreadable)
    ∧ resolve (some "1.22.0") [FileState.content "1.21.0"] (FileState.content "1.20.0") =
        Except.ok (some "1.22.0")
    ∧ resolve none [FileState.content "1.21.0"] (FileState.content "1.20.0") =
        Except.ok (some "1.21.0")
    ∧ resolve none [FileState.absent] (FileState.content "1.20.0") =
        Except.ok (some "1.20.0")
    ∧ resolve none [FileState.absent] FileState.absent = Except.ok none :=
  ⟨by simp, by simp,
   (c1_resolve_precedence (some "1.22.0") [FileState.content "1.21.0"]
      (FileState.content "1.20.0") (by simp) (by simp)).trans (by decide),
   (c1_resolve_precedence none [FileState.content "1.21.0"]
      (FileState.content "1.20.0") (by simp) (by simp)).trans (by decide),
   (c1_resolve_precedence none [FileState.absent]
      (FileState.content "1.20.0") (by simp) (by simp)).trans (by decide),
   (c1_resolve_precedence none [FileState.absent] FileState.absent
      (by simp) (by simp)).trans (by decide)⟩

set_option maxRecDepth 4000 in
theorem shim_content_contains (b p : String) : containsStr (shim_content b p) p = true := by
  have h : p.data <:+: (shim_content b p).data := by
    refine ⟨(shimPart1 ++ b ++ shimPart2).data, (shimPart3 ++ b ++ shimPart4).data, ?_⟩
    simp [shim_content, String.data_append, List.append_assoc]
  simpa [containsStr] using h

theorem ensure_shims_wrote (store : String → FileState) (govm b : String)
    (hb : b ∈ GO_BINARIES) :
    (ensure_shims store govm).2 b = needs_update (store b) govm := by
  by_cases hn : needs_update (store b) govm = true
  · simp [ensure_shims, ensure_shim, hb, hn]
  · rw [Bool.not_eq_true] at hn
    simp [ensure_shims, ensure_shim, hb, hn]

theorem ensure_shims_state (store : String → FileState) (govm b : String)
    (hb : b ∈ GO_BINARIES) :
    (ensure_shims store govm).1 b =
      if needs_update (store b) govm then FileState.content (shim_content b govm)
      else store b := by
  by_cases hn : needs_update (store b) govm = true
  · simp [ensure_shims, ensure_shim, hb, hn]
  · rw [Bool.not_eq_true] at hn
    simp [ensure_shims, ensure_shim, hb, hn]

/-- C5: for each managed binary name, `ensure_shims` writes the shim
exactly when the existing file is absent, unreadable, or its content does
not contain the current govm executable path; a shim whose content
already contains the path is left untouched; and a second `ensure_shims`
run by the same executable performs no write. -/
theorem c5_ensure_shims :
    ∀ (store : String → FileState) (govm b : String),
      GO_BINARIES.contains b = true →
      ((ensure_shims store govm).2 b = true ↔
        (store b = FileState.absent ∨ store b = FileState.unreadable ∨
          ∃ c, store b = FileState.content c ∧ containsStr c govm = false))
      ∧ ((ensure_shims store govm).2 b = false → (ensure_shims store govm).1 b = store b)
      ∧ (ensure_shims (ensure_shims store govm).1 govm).2 b = false := by
  intro store govm b hb
  have hb' : b ∈ GO_BINARIES := by simpa using hb
  refine ⟨?_, ?_, ?_⟩
  · rw [ensure_shims_wrote store govm b hb']
    cases hsb : store b with
    | absent => simp [needs_update]
    | unreadable => simp [needs_update]
    | content c => simp [needs_update]
  · intro hfalse
    rw [ensure_shims_wrote store govm b hb'] at hfalse
    rw [ensure_shims_state store govm b hb', hfalse]
    simp
  · rw [ensure_shims_wrote _ govm b hb', ensure_shims_state store govm b hb']
    by_cases hn : needs_update (store b) govm = true
    · rw [if_pos hn]
      simp [needs_update, shim_content_contains]
    · rw [Bool.not_eq_true] at hn
      rw [if_neg (by simp [hn]), hn]

/-- C5 witness: starting from an absent shim for "go", the first
`ensure_shims` run writes and the second run does not. -/
theorem c5_ensure_shims_witness :
    GO_BINARIES.contains "go" = true
    ∧ (ensure_shims (fun _ => FileState.absent) "/usr/local/bin/govm").2 "go" = true
    ∧ (ensure_shims (ensure_shims (fun _ => FileState.absent) "/usr/local/bin/govm").1
        "/usr/local/bin/govm").2 "go" = false :=
  ⟨by decide,
   (c5_ensure_shims (fun _ => FileState.absent) "/usr/local/bin/govm" "go"
      (by decide)).1.mpr (Or.inl rfl),
   (c5_ensure_shims (fun _ => FileState.absent) "/usr/local/bin/govm" "go" (by decide)).2.2⟩

end Govm

namespace Govm

/-- C6: uninstalling a version that is not installed is a no-op success;
uninstalling an installed version that equals the current global default
yields the state with the global-default marker removed and the install
directory gone, and resolution with no override and no scoped pin then
returns absent. -/
theorem c6_uninstall :
    (∀ (st : GoVMState) (v : String),
      is_version_installed st (normalize v) = false → uninstall_version st v = Except.ok st)
    ∧ (∀ (st : GoVMState) (v : String),
        (normalize v, true) ∈ st.entries →
        get_global_version st.globalFile = Except.ok (some (normalize v)) →
        uninstall_version st v =
          Except.ok { entries := st.entries.filter (fun e => e.1 ≠ normalize v),
                      globalFile := FileState.absent })
    ∧ (∀ dirs : List FileState, (∀ d ∈ dirs, d = FileState.absent) →
        resolve none dirs FileState.absent = Except.ok none) := by
  refine ⟨?_, ?_, ?_⟩
  · intro st v h
    simp [uninstall_version, h]
  · intro st v hmem hglob
    have hinst : is_version_installed st (normalize v) = true :=
      List.any_eq_true.mpr ⟨(normalize v, true), hmem, by simp⟩
    have hdir : st.entries.any (fun e => e.1 == normalize v && e.2) = true :=
      List.any_eq_true.mpr ⟨(normalize v, true), hmem, by simp⟩
    simp [uninstall_version, hinst, hglob, remove_dir_all, hdir]
  · intro dirs h
    have h2 : find_local_version dirs = Except.ok none :=
      (find_local_skips (fun d hd => by rw [h d hd]; rfl)).2
    simp [resolve, h2, get_global_version]

/-- C6 witness: a one-version state whose global default is that version;
uninstalling an absent version is a no-op success, uninstalling the
installed global default clears both marker and directory, and the
resulting empty configuration resolves to absent. -/
theorem c6_uninstall_witness :
    is_version_installed ⟨[("1.21.0", true)], FileState.content "1.21.0\n"⟩
        (normalize "99.99.99") = false
    ∧ uninstall_version ⟨[("1.21.0", true)], FileState.content "1.21.0\n"⟩ "99.99.99" =
        Except.ok ⟨[("1.21.0", true)], FileState.content "1.21.0\n"⟩
    ∧ uninstall_version ⟨[("1.21.0", true)], FileState.content "1.21.0\n"⟩ "1.21.0" =
        Except.ok ⟨[], FileState.absent⟩
    ∧ resolve none [FileState.absent] FileState.absent = Except.ok none :=
  ⟨by decide,
   c6_uninstall.1 ⟨[("1.21.0", true)], FileState.content "1.21.0\n"⟩ "99.99.99" (by decide),
   (c6_uninstall.2.1 ⟨[("1.21.0", true)], FileState.content "1.21.0\n"⟩ "1.21.0"
      (by decide) (by decide)).trans (by decide),
   c6_uninstall.2.2 [FileState.absent] (by simp)⟩

/-- C8: `exec_command` fails with the no-version-configured error when
resolution returns absent; fails with the not-installed error — without
spawning — when the resolved version has no entry under the versions
directory; fails with the binary-not-found error when the version's
install tree lacks the requested binary; and otherwise spawns the target
binary with `GOROOT` set to the version's install directory, exiting with
the child's exit code (`unwrap_or(1)`). -/
theorem c8_exec_command :
    ∀ (st : GoVMState) (ov : Option String) (dirs : List FileState)
      (binPresent : String → String → Bool) (command : String) (childCode : Option Nat),
      (resolve ov dirs st.globalFile = Except.ok none →
        exec_command st ov dirs binPresent command childCode =
          ExecResult.noVersionConfigured)
      ∧ (∀ version, resolve ov dirs st.globalFile = Except.ok (some version) →
          is_version_installed st version = false →
          exec_command st ov dirs binPresent command childCode =
            ExecResult.notInstalled version)
      ∧ (∀ version, resolve ov dirs st.globalFile = Except.ok (some version) →
          is_version_installed st version = true → binPresent version command = false →
          exec_command st ov dirs binPresent command childCode =
            ExecResult.binaryNotFound command version)
      ∧ (∀ version, resolve ov dirs st.globalFile = Except.ok (some version) →
          is_version_installed st version = true → binPresent version command = true →
          exec_command st ov dirs binPresent command childCode =
            ExecResult.spawned version command (childCode.getD 1)) := by
  intro st ov dirs bp cmd cc
  refine ⟨?_, ?_, ?_, ?_⟩
  · intro hres
    simp [exec_command, hres]
  · intro version hres hni
    simp [exec_command, hres, hni]
  · intro version hres hi hb
    simp [exec_command, hres, hi, hb]
  · intro version hres hi hb
    simp [exec_command, hres, hi, hb]

/-- C8 witness: a configured-but-uninstalled version — the global default
names 1.21.0 but no entry for it exists — makes `exec_command` return the
not-installed error rather than spawning. -/
theorem c8_exec_command_witness :
    resolve none [] (FileState.content "1.21.0\n") = Except.ok (some "1.21.0")
    ∧ is_version_installed ⟨[], FileState.content "1.21.0\n"⟩ "1.21.0" = false
    ∧ exec_command ⟨[], FileState.content "1.21.0\n"⟩ none [] (fun _ _ => false) "go" none =
        ExecResult.notInstalled "1.21.0" :=
  ⟨by decide, by decide,
   (c8_exec_command ⟨[], FileState.content "1.21.0\n"⟩ none [] (fun _ _ => false) "go"
      none).2.1 "1.21.0" (by decide) (by decide)⟩

end Govm

namespace Govm

/-- C9 (defect witnessed in the code): with the working directory's
`.go-version` empty and the parent's containing "1.21.0", the resolution
walk returns "1.21.0" from the parent file (index 1, per
`resolve_pin_idx`), but `show_version` re-walks stopping at the FIRST
existing pin file and reports the empty working-directory file (index 0)
as the provenance — the displayed file has empty canonical content, so it
is not the marker file whose content resolution returned. -/
theorem c9_provenance_mismatch :
    find_local_version [FileState.content "", FileState.content "1.21.0"] =
      Except.ok (some "1.21.0")
    ∧ resolve none [FileState.content "", FileState.content "1.21.0"] FileState.absent =
      Except.ok (some "1.21.0")
    ∧ resolve_pin_idx [FileState.content "", FileState.content "1.21.0"] = some 1
    ∧ show_version_source none [FileState.content "", FileState.content "1.21.0"]
        FileState.absent = Except.ok (Provenance.pinFile 0)
    ∧ normalize (rustTrim "") = "" := by
  decide

/-- C10: every version listed by `get_installed_versions` passes
`is_version_installed`, but not conversely — a plain file (non-directory)
entry named "1.21.0" under the versions directory makes
`is_version_installed` true and is accepted as installed by
`set_global_version`, `set_local_version`, and `exec_command`'s installed
check (which then proceeds to the binary check), while the version is
absent from the `get_installed_versions` listing. -/
theorem c10_installed_check_asymmetry :
    (∀ (st : GoVMState) (v : String),
      v ∈ get_installed_versions st → is_version_installed st v = true)
    ∧ is_version_installed ⟨[("1.21.0", false)], FileState.content "1.21.0\n"⟩ "1.21.0" = true
    ∧ "1.21.0" ∉ get_installed_versions ⟨[("1.21.0", false)], FileState.content "1.21.0\n"⟩
    ∧ set_global_version ⟨[("1.21.0", false)], FileState.content "1.21.0\n"⟩ "1.21.0" =
        Except.ok ⟨[("1.21.0", false)], FileState.content "1.21.0\n"⟩
    ∧ set_local_version ⟨[("1.21.0", false)], FileState.content "1.21.0\n"⟩
        [FileState.absent] "1.21.0" = Except.ok [FileState.content "1.21.0\n"]
    ∧ exec_command ⟨[("1.21.0", false)], FileState.content "1.21.0\n"⟩ none []
        (fun _ _ => false) "go" none = ExecResult.binaryNotFound "go" "1.21.0" := by
  refine ⟨?_, by decide, by decide, by decide, by decide, by decide⟩
  intro st v hv
  have hv2 : v ∈ (st.entries.filter (fun e => e.2)).map (fun e => e.1) := by
    simpa [get_installed_versions, List.mem_insertionSort] using hv
  obtain ⟨e, he, hev⟩ := List.mem_map.mp hv2
  have he2 : e ∈ st.entries := (List.mem_filter.mp he).1
  exact List.any_eq_true.mpr ⟨e, he2, by simp [hev]⟩

/-- C10 witness: the listing-to-installed direction applied to a state
with one directory entry. -/
theorem c10_installed_check_asymmetry_witness :
    "1.22.0" ∈ get_installed_versions ⟨[("1.22.0", true)], FileState.absent⟩
    ∧ is_version_installed ⟨[("1.22.0", true)], FileState.absent⟩ "1.22.0" = true :=
  ⟨by decide,
   c10_installed_check_asymmetry.1 ⟨[("1.22.0", true)], FileState.absent⟩ "1.22.0"
     (by decide)⟩

end Govm

namespace Govm

theorem mem_installed_dir {st : GoVMState} {v : String}
    (hv : v ∈ get_installed_versions st) : ∃ e ∈ st.entries, e.1 = v ∧ e.2 = true := by
  have hv2 : v ∈ (st.entries.filter (fun e => e.2)).map (fun e => e.1) := by
    simpa [get_installed_versions, List.mem_insertionSort] using hv
  obtain ⟨e, he, hev⟩ := List.mem_map.mp hv2
  obtain ⟨he1, he2⟩ := List.mem_filter.mp he
  exact ⟨e, he1, hev, by simpa using he2⟩

theorem installed_nodup {st : GoVMState}
    (hnd : (st.entries.map (fun e => e.1)).Nodup) :
    (get_installed_versions st).Nodup := by
  have h1 : ((st.entries.filter (fun e => e.2)).map (fun e => e.1)).Sublist
      (st.entries.map (fun e => e.1)) := (List.filter_sublist _).map _
  have h2 : ((st.entries.filter (fun e => e.2)).map (fun e => e.1)).Nodup := hnd.sublist h1
  exact (List.perm_insertionSort version_order _).nodup_iff.mpr h2

theorem removeAll_eq (ts : List String) :
    ∀ (st : GoVMState), ts.Nodup →
      (∀ v ∈ ts, ∃ e ∈ st.entries, e.1 = v ∧ e.2 = true) →
      removeAll st ts =
        Except.ok { st with entries := st.entries.filter (fun e => ! ts.contains e.1) } := by
  induction ts with
  | nil =>
    intro st _ _
    simp [removeAll]
  | cons v rest ih =>
    intro st hnd hdir
    obtain ⟨e, he, he1, he2⟩ := hdir v (by simp)
    have hany : st.entries.any (fun x => x.1 == v && x.2) = true :=
      List.any_eq_true.mpr ⟨e, he, by simp [he1, he2]⟩
    have hvrest : v ∉ rest := (List.nodup_cons.mp hnd).1
    have hdir2 : ∀ u ∈ rest,
        ∃ x ∈ st.entries.filter (fun x => x.1 ≠ v), x.1 = u ∧ x.2 = true := by
      intro u hu
      obtain ⟨x, hx, hx1, hx2⟩ := hdir u (by simp [hu])
      have hne : u ≠ v := fun h => hvrest (h ▸ hu)
      exact ⟨x, List.mem_filter.mpr ⟨hx, by simp [hx1, hne]⟩, hx1, hx2⟩
    have hstep := ih { st with entries := st.entries.filter (fun x => x.1 ≠ v) }
      (List.nodup_cons.mp hnd).2 hdir2
    simp only [removeAll, remove_dir_all, hany, if_pos]
    rw [hstep]
    congr 1
    congr 1
    rw [List.filter_filter]
    apply List.filter_congr
    intro x _
    by_cases hxv : x.1 = v
    · simp [hxv]
    · simp [hxv]

end Govm

namespace Govm

/-- C7: with the deletion confirmed and the global-default file readable,
`prune_versions keep` removes exactly the versions outside the first
`keep` entries of the descending-sorted installed listing, except any
version equal to the current global default, which is never removed: the
result keeps precisely the directory entries whose name is not in that
removal list, and the removal list contains a version iff it lies outside
the keep window and differs from the global default. -/
theorem c7_prune :
    ∀ (st : GoVMState) (keep : Nat) (global : Option String),
      (st.entries.map (fun e => e.1)).Nodup →
      get_global_version st.globalFile = Except.ok global →
      prune_versions st keep true =
        Except.ok
          ({ st with entries := st.entries.filter (fun e =>
              ! (((get_installed_versions st).drop keep).filter
                  (fun v => global ≠ some v)).contains e.1) },
           ((get_installed_versions st).drop keep).filter (fun v => global ≠ some v))
      ∧ (∀ v, v ∈ ((get_installed_versions st).drop keep).filter (fun v => global ≠ some v) ↔
          (v ∈ (get_installed_versions st).drop keep ∧ global ≠ some v)) := by
  intro st keep global hnd hglob
  refine ⟨?_, ?_⟩
  · by_cases hlen : (get_installed_versions st).length ≤ keep
    · have hdrop : (get_installed_versions st).drop keep = [] :=
        List.drop_eq_nil_of_le hlen
      simp [prune_versions, hglob, hlen, hdrop]
    · have htrnd :
          (((get_installed_versions st).drop keep).filter
            (fun v => global ≠ some v)).Nodup :=
        (installed_nodup hnd).sublist
          ((List.filter_sublist _).trans (List.drop_sublist _ _))
      have htrdir : ∀ v ∈ ((get_installed_versions st).drop keep).filter
          (fun v => global ≠ some v), ∃ e ∈ st.entries, e.1 = v ∧ e.2 = true := by
        intro v hv
        exact mem_installed_dir
          (List.mem_of_mem_drop (List.mem_filter.mp hv).1)
      by_cases hemp : (((get_installed_versions st).drop keep).filter
          (fun v => global ≠ some v)).isEmpty
      · have htr0 : ((get_installed_versions st).drop keep).filter
            (fun v => global ≠ some v) = [] := by
          simpa using hemp
        simp only [prune_versions, hglob]
        rw [if_neg hlen, htr0]
        simp
      · have hrem := removeAll_eq _ st htrnd htrdir
        simp only [prune_versions, hglob]
        rw [if_neg hlen, if_neg hemp, hrem]
        simp
  · intro v
    simp [List.mem_filter]

/-- C7 witness: the spec's scenario — three installed versions, the
global default being the oldest, `keep = 1`: only the middle version
"1.21.0" is removed; the newest "1.22.0" and the protected global
"1.20.0" remain. -/
theorem c7_prune_witness :
    ([("1.22.0", true), ("1.21.0", true), ("1.20.0", true)].map
        (fun e : String × Bool => e.1)).Nodup
    ∧ get_global_version (FileState.content "1.20.0\n") = Except.ok (some "1.20.0")
    ∧ prune_versions ⟨[("1.22.0", true), ("1.21.0", true), ("1.20.0", true)],
        FileState.content "1.20.0\n"⟩ 1 true =
      Except.ok (⟨[("1.22.0", true), ("1.20.0", true)], FileState.content "1.20.0\n"⟩,
        ["1.21.0"]) :=
  ⟨by decide, by decide,
   ((c7_prune ⟨[("1.22.0", true), ("1.21.0", true), ("1.20.0", true)],
        FileState.content "1.20.0\n"⟩ 1 (some "1.20.0") (by decide) (by decide)).1).trans
     (by decide)⟩

end Govm
